import Mathlib

/-!
Shallow embedding of `src/src/main.rs` (the rusuku terminal dashboard).

Time is modelled as `Nat`: an `Instant` is a point on the host clock and a
`Duration` is a number of time units.  Every operation that calls
`Instant::now()` in the source takes the current instant `now : Nat` as an
explicit argument.  `Instant::elapsed` saturates at zero in Rust, which
truncated `Nat` subtraction models exactly.
-/

set_option autoImplicit false

namespace Rusuku

/-- The `App` struct (main.rs lines 25-31): exit flag, timer-running flag,
optional start instant and accumulated duration.  `#[derive(Default)]` gives
the initial value `App.default` below. -/
structure App where
  exit : Bool
  is_timer_running : Bool
  start_time : Option Nat
  elapsed_time : Nat
deriving DecidableEq, Repr

/-- `App::default()`: `exit = false`, `is_timer_running = false`,
`start_time = None`, `elapsed_time = 0`. -/
def App.default : App :=
  { exit := false, is_timer_running := false, start_time := none, elapsed_time := 0 }

/-- `App::start_timer` (main.rs lines 86-92): no-op when running, otherwise
set the running flag and record the current instant. -/
def App.start_timer (a : App) (now : Nat) : App :=
  if a.is_timer_running then a
  else { a with is_timer_running := true, start_time := some now }

/-- `App::start_game` (main.rs lines 82-84): just calls `start_timer`. -/
def App.start_game (a : App) (now : Nat) : App :=
  a.start_timer now

/-- `App::stop_timer` (main.rs lines 94-104): no-op when not running,
otherwise clear the running flag and, when a start instant is present, add
`start_time.elapsed()` (= `now - start_time`, saturating) to `elapsed_time`
and clear `start_time`. -/
def App.stop_timer (a : App) (now : Nat) : App :=
  if !a.is_timer_running then a
  else
    let a1 := { a with is_timer_running := false }
    match a1.start_time with
    | some t0 =>
        { a1 with elapsed_time := a1.elapsed_time + (now - t0), start_time := none }
    | none => a1

/-- `App::continue_timer` (main.rs lines 106-112): no-op when running,
otherwise record the current instant and set the running flag. -/
def App.continue_timer (a : App) (now : Nat) : App :=
  if a.is_timer_running then a
  else { a with start_time := some now, is_timer_running := true }

/-- `App::elapsed` (main.rs lines 114-121): when a start instant is present
and the timer is running, `elapsed_time + start_time.elapsed()`; otherwise
`elapsed_time`. -/
def App.elapsed (a : App) (now : Nat) : Nat :=
  match a.start_time with
  | some t0 => if a.is_timer_running then a.elapsed_time + (now - t0) else a.elapsed_time
  | none => a.elapsed_time

/-- `App::exit` (main.rs lines 123-125): set the exit flag.  Named
`exit_app` because the structure field projection already uses `exit`. -/
def App.exit_app (a : App) : App :=
  { a with exit := true }

/-- `App::handle_key_event` (main.rs lines 72-80): dispatch on the pressed
character, ignoring everything unrecognized. -/
def App.handle_key_event (a : App) (now : Nat) (c : Char) : App :=
  if c = 'q' then a.exit_app
  else if c = 'i' then a.start_game now
  else if c = 'p' then a.stop_timer now
  else if c = 'c' then a.continue_timer now
  else a

/-! Trace semantics: sequences of timer operations separated by simulated
delays, as in the spec's testable properties. -/

/-- A timer operation of a trace: `start` (key `i`), `pause` (key `p`) or
`resume` (key `c`). -/
inductive TimerOp where
  | start
  | pause
  | resume
deriving DecidableEq, Repr

/-- Perform one timer operation at instant `t`. -/
def stepOp (a : App) (t : Nat) : TimerOp → App
  | TimerOp.start => a.start_timer t
  | TimerOp.pause => a.stop_timer t
  | TimerOp.resume => a.continue_timer t

/-- Run a trace from state `a` at instant `t`.  Each entry `(d, op)` lets
the clock advance by `d` and then performs `op`; the result is the final
state and the final instant.  Encoding delays (rather than absolute
instants) makes the clock never go backward by construction. -/
def runFrom (a : App) (t : Nat) : List (Nat × TimerOp) → App × Nat
  | [] => (a, t)
  | (d, op) :: rest => runFrom (stepOp a (t + d) op) (t + d) rest

/-- Refinement side, following the spec's words: the sum of the durations of
all matched `start`/`resume` to `pause` run segments of a trace, plus the
duration of the in-progress segment (observed `dF` after the last event) if
one is open.  `openedAt` is the instant at which the current segment opened,
if any, and `t` the instant of the previous event. -/
def specSegmentSum : Option Nat → Nat → List (Nat × TimerOp) → Nat → Nat
  | some t0, t, [], dF => (t + dF) - t0
  | none, _, [], _ => 0
  | openedAt, t, (d, op) :: rest, dF =>
    match openedAt, op with
    | none, TimerOp.start => specSegmentSum (some (t + d)) (t + d) rest dF
    | none, TimerOp.resume => specSegmentSum (some (t + d)) (t + d) rest dF
    | some t0, TimerOp.pause => ((t + d) - t0) + specSegmentSum none (t + d) rest dF
    | o, _ => specSegmentSum o (t + d) rest dF

/-- The invariant of the timer state: a start instant is present iff the
timer is running. -/
def timer_inv (a : App) : Prop :=
  a.start_time.isSome = a.is_timer_running

/-! Header rendering (`render_header`, main.rs lines 127-163).  Only the
text content is modelled: the format string `"{:02}:{:02}"` applied to
`elapsed().as_secs() / 60` and `elapsed().as_secs() % 60`. -/

/-- Rust's `{:02}` format for a natural number: pad the decimal
representation with zeros on the left to width two, never truncating. -/
def pad2 (n : Nat) : String :=
  if n < 10 then "0" ++ toString n else toString n

/-- The header text of `render_header` (main.rs lines 135-137), as a
function of the elapsed duration in whole seconds. -/
def header_text (elapsed_secs : Nat) : String :=
  pad2 (elapsed_secs / 60) ++ ":" ++ pad2 (elapsed_secs % 60)

/-! Grid border plan (`render_table`, main.rs lines 165-237).  A 3 by 3
grid of cells; `vi` is the column index of a cell and `hi` its row index,
exactly as in the two `match (vi, hi)` tables of the source. -/

/-- A box-drawing glyph of the thick line set, named after the
`ratatui::symbols::line` constants used by the source: `horizontal` is the
straight line, `vertical` the straight column, `top_left` .. `bottom_right`
the four L-corners of `border::THICK`, `vertical_right` the T opening
right, `vertical_left` the T opening left, `horizontal_down` the T opening
down, `horizontal_up` the T opening up, and `cross` the four-way
junction. -/
inductive Glyph where
  | horizontal
  | vertical
  | top_left
  | top_right
  | bottom_left
  | bottom_right
  | vertical_right
  | vertical_left
  | horizontal_down
  | horizontal_up
  | cross
deriving DecidableEq, Repr

/-- `ratatui::symbols::border::Set`: the glyph drawn at each corner and
along each side of a block border. -/
structure BorderSet where
  top_left : Glyph
  top_right : Glyph
  bottom_left : Glyph
  bottom_right : Glyph
  vertical_left : Glyph
  vertical_right : Glyph
  horizontal_top : Glyph
  horizontal_bottom : Glyph
deriving DecidableEq, Repr

/-- `ratatui::symbols::border::THICK`: thick L-corners and thick straight
lines. -/
def THICK : BorderSet :=
  { top_left := Glyph.top_left, top_right := Glyph.top_right,
    bottom_left := Glyph.bottom_left, bottom_right := Glyph.bottom_right,
    vertical_left := Glyph.vertical, vertical_right := Glyph.vertical,
    horizontal_top := Glyph.horizontal, horizontal_bottom := Glyph.horizontal }

/-- Which of the four sides a cell draws, modelling the `Borders` bitflags. -/
structure BordersSpec where
  left : Bool
  top : Bool
  right : Bool
  bottom : Bool
deriving DecidableEq, Repr

/-- `Borders::ALL`. -/
def bordersALL : BordersSpec :=
  { left := true, top := true, right := true, bottom := true }

/-- The `border_set` table of `render_table` (main.rs lines 179-216),
indexed by `(vi, hi)` = (column, row); the wildcard arm is `THICK`. -/
def border_set (vi hi : Nat) : BorderSet :=
  match vi, hi with
  | 0, 0 => { THICK with bottom_left := Glyph.vertical_right }
  | 1, 0 => { THICK with
      top_right := Glyph.horizontal_down
      top_left := Glyph.horizontal_down
      bottom_left := Glyph.cross, bottom_right := Glyph.cross }
  | 2, 0 => { THICK with bottom_right := Glyph.vertical_left }
  | 0, 1 => { THICK with bottom_left := Glyph.vertical_right }
  | 1, 1 => { THICK with bottom_left := Glyph.cross, bottom_right := Glyph.cross }
  | 2, 1 => { THICK with bottom_right := Glyph.vertical_left }
  | 0, 2 => THICK
  | 1, 2 => { THICK with
      bottom_left := Glyph.horizontal_up
      bottom_right := Glyph.horizontal_up }
  | 2, 2 => THICK
  | _, _ => THICK

/-- The `borders` table of `render_table` (main.rs lines 218-229), indexed
by `(vi, hi)` = (column, row); the wildcard arm is `Borders::ALL`. -/
def borders (vi hi : Nat) : BordersSpec :=
  match vi, hi with
  | 0, 0 => { left := true, top := true, right := false, bottom := true }
  | 1, 0 => bordersALL
  | 2, 0 => { left := false, top := true, right := true, bottom := true }
  | 0, 1 => { left := true, top := false, right := false, bottom := true }
  | 1, 1 => { left := true, top := false, right := true, bottom := true }
  | 2, 1 => { left := false, top := false, right := true, bottom := true }
  | 0, 2 => { left := true, top := false, right := false, bottom := true }
  | 1, 2 => { left := true, top := false, right := true, bottom := true }
  | 2, 2 => { left := false, top := false, right := true, bottom := true }
  | _, _ => bordersALL

/-- Modelled from the spec: the generalized `rows` by `cols` border plan
that section 4.2 describes (classify each index as first, middle or last;
first columns paint `left`, middle columns paint `left` and `right`, last
columns paint `right`, every cell paints `bottom`, and `top` is painted
only in row 0).  The source implements only the 3 by 3 instance, as the
`borders` table above. -/
def bordersGen (rows cols row col : Nat) : BordersSpec :=
  { left := decide (col = 0 ∨ (0 < col ∧ col + 1 < cols)),
    top := decide (row = 0),
    right := decide (col + 1 = cols ∨ (0 < col ∧ col + 1 < cols)),
    bottom := true }

/-! Buffer composition.  `render_table` lays the cells out as three
horizontal bands of width `W` times three vertical bands of height `H`
(`Constraint::Max(18)` on each band) and renders each cell's `Block` into
the shared frame buffer.  Bands are consecutive and disjoint, so every
buffer position belongs to exactly one cell. -/

/-- Which of the three consecutive bands of extent `W` a coordinate falls
in, together with the local coordinate inside that band. -/
def bandOf (W x : Nat) : Option (Nat × Nat) :=
  if x < W then some (0, x)
  else if x < 2 * W then some (1, x - W)
  else if x < 3 * W then some (2, x - 2 * W)
  else none

/-- `Block::render` for one cell, at local position `(lx, ly)` of a `W` by
`H` rectangle: ratatui draws the left, top, right and bottom lines, then
overwrites the bottom-right, top-right, bottom-left and top-left corners,
in that order, each only when both adjacent sides are present.  The
branches below test in the reverse of that drawing order, so the first
match is the glyph that ends up in the buffer. -/
def cellRender (b : BordersSpec) (s : BorderSet) (W H lx ly : Nat) : Option Glyph :=
  if b.left = true ∧ b.top = true ∧ lx = 0 ∧ ly = 0 then some s.top_left
  else if b.left = true ∧ b.bottom = true ∧ lx = 0 ∧ ly + 1 = H then some s.bottom_left
  else if b.right = true ∧ b.top = true ∧ lx + 1 = W ∧ ly = 0 then some s.top_right
  else if b.right = true ∧ b.bottom = true ∧ lx + 1 = W ∧ ly + 1 = H then some s.bottom_right
  else if b.bottom = true ∧ ly + 1 = H then some s.horizontal_bottom
  else if b.right = true ∧ lx + 1 = W then some s.vertical_right
  else if b.top = true ∧ ly = 0 then some s.horizontal_top
  else if b.left = true ∧ lx = 0 then some s.vertical_left
  else none

/-- The composed grid buffer: the glyph (if any) that `render_table` leaves
at position `(x, y)` when every cell is `W` wide and `H` tall. -/
def gridGlyph (W H x y : Nat) : Option Glyph :=
  match bandOf W x, bandOf H y with
  | some (vi, lx), some (hi, ly) => cellRender (borders vi hi) (border_set vi hi) W H lx ly
  | _, _ => none

/-- The horizontal coordinates of the junction points of the composed
grid: the left perimeter, the two internal vertical separators (drawn at
the left column of band 1 and the right column of band 1) and the right
perimeter. -/
def junctionXs (W : Nat) : List Nat :=
  [0, W, 2 * W - 1, 3 * W - 1]

/-- The vertical coordinates of the junction points of the composed grid:
the top perimeter and the bottom rows of the three bands. -/
def junctionYs (H : Nat) : List Nat :=
  [0, H - 1, 2 * H - 1, 3 * H - 1]

/-! Helper lemmas about the timer. -/

/-- `elapsed` is monotone in the observation instant. -/
theorem elapsed_mono (a : App) (n m : Nat) (h : n ≤ m) :
    a.elapsed n ≤ a.elapsed m := by
  unfold App.elapsed
  cases a.start_time with
  | none => exact Nat.le_refl _
  | some t0 =>
    by_cases hr : a.is_timer_running = true <;> simp [hr] <;> omega

/-- Performing any timer operation at instant `t` does not change the value
of `elapsed` observed at that same instant. -/
theorem stepOp_elapsed (a : App) (t : Nat) (op : TimerOp) :
    (stepOp a t op).elapsed t = a.elapsed t := by
  cases op <;>
    rcases hs : a.start_time with _ | t0 <;>
      by_cases hr : a.is_timer_running = true <;>
        simp [stepOp, App.start_timer, App.stop_timer, App.continue_timer,
          App.elapsed, hs, hr] <;>
          omega

/-- Along any trace, the value of `elapsed` never decreases. -/
theorem runFrom_elapsed_le (es : List (Nat × TimerOp)) :
    ∀ (a : App) (t dF : Nat),
      a.elapsed t ≤ ((runFrom a t es).1).elapsed ((runFrom a t es).2 + dF) := by
  induction es with
  | nil =>
    intro a t dF
    simpa [runFrom] using elapsed_mono a t (t + dF) (Nat.le_add_right _ _)
  | cons e rest ih =>
    intro a t dF
    obtain ⟨d, op⟩ := e
    have h1 : a.elapsed t ≤ a.elapsed (t + d) :=
      elapsed_mono a t (t + d) (Nat.le_add_right _ _)
    have h2 : a.elapsed (t + d) = (stepOp a (t + d) op).elapsed (t + d) :=
      (stepOp_elapsed a (t + d) op).symm
    have h3 := ih (stepOp a (t + d) op) (t + d) dF
    simpa [runFrom] using le_trans h1 (le_trans (le_of_eq h2) h3)

/-- The timer invariant is preserved along any trace. -/
theorem runFrom_inv (es : List (Nat × TimerOp)) :
    ∀ (a : App) (t : Nat), timer_inv a → timer_inv ((runFrom a t es).1) := by
  induction es with
  | nil => intro a t h; simpa [runFrom] using h
  | cons e rest ih =>
    intro a t h
    obtain ⟨d, op⟩ := e
    have hstep : timer_inv (stepOp a (t + d) op) := by
      cases op <;>
        rcases hs : a.start_time with _ | t0 <;>
          by_cases hr : a.is_timer_running = true <;>
            simp_all [stepOp, App.start_timer, App.stop_timer,
              App.continue_timer, timer_inv]
    simpa [runFrom] using ih (stepOp a (t + d) op) (t + d) hstep

/-- Running a trace and then observing `elapsed` computes exactly the
spec's matched-segment sum, provided the state's start instant and running
flag agree with the segment currently open. -/
theorem runFrom_segSum (es : List (Nat × TimerOp)) :
    ∀ (a : App) (t dF : Nat) (o : Option Nat),
      a.start_time = o → a.is_timer_running = o.isSome →
      ((runFrom a t es).1).elapsed ((runFrom a t es).2 + dF)
        = a.elapsed_time + specSegmentSum o t es dF := by
  induction es with
  | nil =>
    intro a t dF o h1 h2
    cases o with
    | none => simp [runFrom, App.elapsed, specSegmentSum, h1, h2]
    | some t0 => simp [runFrom, App.elapsed, specSegmentSum, h1, h2]
  | cons e rest ih =>
    intro a t dF o h1 h2
    obtain ⟨d, op⟩ := e
    cases o with
    | none =>
      have hr : a.is_timer_running = false := by simpa using h2
      cases op with
      | start =>
        have hstep : stepOp a (t + d) TimerOp.start
            = { a with is_timer_running := true, start_time := some (t + d) } := by
          simp [stepOp, App.start_timer, hr]
        rw [runFrom, hstep, ih _ _ _ (some (t + d)) rfl rfl]
        simp [specSegmentSum]
      | resume =>
        have hstep : stepOp a (t + d) TimerOp.resume
            = { a with is_timer_running := true, start_time := some (t + d) } := by
          simp [stepOp, App.continue_timer, hr]
        rw [runFrom, hstep, ih _ _ _ (some (t + d)) rfl rfl]
        simp [specSegmentSum]
      | pause =>
        have hstep : stepOp a (t + d) TimerOp.pause = a := by
          simp [stepOp, App.stop_timer, hr]
        rw [runFrom, hstep, ih _ _ _ none h1 (by simpa using hr)]
        simp [specSegmentSum]
    | some t0 =>
      have hr : a.is_timer_running = true := by simpa using h2
      cases op with
      | start =>
        have hstep : stepOp a (t + d) TimerOp.start = a := by
          simp [stepOp, App.start_timer, hr]
        rw [runFrom, hstep, ih _ _ _ (some t0) h1 (by simpa using hr)]
        simp [specSegmentSum]
      | resume =>
        have hstep : stepOp a (t + d) TimerOp.resume = a := by
          simp [stepOp, App.continue_timer, hr]
        rw [runFrom, hstep, ih _ _ _ (some t0) h1 (by simpa using hr)]
        simp [specSegmentSum]
      | pause =>
        have hstep : stepOp a (t + d) TimerOp.pause
            = { a with
                is_timer_running := false
                start_time := none
                elapsed_time := a.elapsed_time + ((t + d) - t0) } := by
          simp [stepOp, App.stop_timer, hr, h1]
        rw [runFrom, hstep, ih _ _ _ none rfl rfl]
        simp [specSegmentSum]
        omega

/-! Claim theorems. -/

/-- C1: for every sequence of start/pause/resume operations separated by
simulated delays, `elapsed()` equals the sum of the durations of all
matched start/resume-to-pause run segments, plus the duration of the
in-progress segment if the timer is currently running; in particular
`elapsed()` returns `accumulated + (now - started_at)` when running and
`accumulated` otherwise. -/
theorem elapsed_segment_sum_C1 :
    (∀ (es : List (Nat × TimerOp)) (dF : Nat),
      ((runFrom App.default 0 es).1).elapsed ((runFrom App.default 0 es).2 + dF)
        = specSegmentSum none 0 es dF) ∧
    (∀ (a : App) (t0 now : Nat), a.is_timer_running = true → a.start_time = some t0 →
      a.elapsed now = a.elapsed_time + (now - t0)) ∧
    (∀ (a : App) (now : Nat), a.is_timer_running = false →
      a.elapsed now = a.elapsed_time) := by
  refine ⟨?_, ?_, ?_⟩
  · intro es dF
    simpa [App.default] using runFrom_segSum es App.default 0 dF none rfl rfl
  · intro a t0 now hr hs
    simp [App.elapsed, hs, hr]
  · intro a now hr
    cases hs : a.start_time <;> simp [App.elapsed, hs, hr]

/-- Witness for C1 at a concrete running state and instant. -/
theorem elapsed_segment_sum_C1_witness :
    (⟨false, true, some 3, 5⟩ : App).elapsed 10 = 5 + (10 - 3) :=
  elapsed_segment_sum_C1.2.1 ⟨false, true, some 3, 5⟩ 3 10 rfl rfl

/-- C2: `start()` and `resume()` are no-ops when the timer is already
running (`elapsed()` unchanged around a redundant start); when it is
stopped with accumulated `a`, both transition to running with the same
accumulated value and `started_at = now`. -/
theorem start_resume_C2 : ∀ (a : App) (now : Nat),
    (a.is_timer_running = true →
      a.start_timer now = a ∧ a.continue_timer now = a ∧
      ∀ m, (a.start_timer now).elapsed m = a.elapsed m) ∧
    (a.is_timer_running = false →
      a.start_timer now = { a with is_timer_running := true, start_time := some now } ∧
      a.continue_timer now = { a with is_timer_running := true, start_time := some now }) := by
  intro a now
  constructor
  · intro hr
    simp [App.start_timer, App.continue_timer, hr]
  · intro hr
    simp [App.start_timer, App.continue_timer, hr]

/-- Witness for C2: starting the fresh (stopped) timer at instant 7. -/
theorem start_resume_C2_witness :
    App.default.start_timer 7
        = { App.default with is_timer_running := true, start_time := some 7 } ∧
      App.default.continue_timer 7
        = { App.default with is_timer_running := true, start_time := some 7 } :=
  (start_resume_C2 App.default 7).2 rfl

/-- C3: `pause()` is a no-op when the timer is already stopped
(`elapsed()` unchanged); when running with accumulated `a` and start
instant `t0`, it transitions to stopped with accumulated `a + (now - t0)`
and the start instant cleared. -/
theorem pause_C3 : ∀ (a : App) (now : Nat),
    (a.is_timer_running = false →
      a.stop_timer now = a ∧ ∀ m, (a.stop_timer now).elapsed m = a.elapsed m) ∧
    (∀ t0, a.is_timer_running = true → a.start_time = some t0 →
      a.stop_timer now
        = { a with
            is_timer_running := false
            start_time := none
            elapsed_time := a.elapsed_time + (now - t0) }) := by
  intro a now
  constructor
  · intro hr
    simp [App.stop_timer, hr]
  · intro t0 hr hs
    simp [App.stop_timer, hr, hs]

/-- Witness for C3: pausing a running timer started at 3, at instant 10,
with 5 units already accumulated. -/
theorem pause_C3_witness :
    (⟨false, true, some 3, 5⟩ : App).stop_timer 10
      = { (⟨false, true, some 3, 5⟩ : App) with
          is_timer_running := false
          start_time := none
          elapsed_time := 5 + (10 - 3) } :=
  (pause_C3 ⟨false, true, some 3, 5⟩ 10).2 3 rfl rfl

/-- C6: the header text is the zero-padded `%02d:%02d` rendering of
`elapsed()` in whole seconds with minutes computed by integer division,
no hour rollover and no clamping; a fresh timer formats as `00:00`, the
start/wait-125-seconds/pause scenario formats as `02:05`, and large
values exceed two digits instead of being clamped. -/
theorem header_format_C6 :
    (∀ s : Nat, header_text s = pad2 (s / 60) ++ ":" ++ pad2 (s % 60)) ∧
    (∀ now : Nat, header_text (App.default.elapsed now) = "00:00") ∧
    (∀ t : Nat, header_text ((App.default.start_timer t).elapsed (t + 125)) = "02:05") ∧
    (∀ t m : Nat,
      header_text (((App.default.start_timer t).stop_timer (t + 125)).elapsed m) = "02:05") ∧
    header_text 125 = "02:05" ∧ header_text 7325 = "122:05" := by
  have h125 : header_text 125 = "02:05" := by decide
  refine ⟨fun s => rfl, ?_, ?_, ?_, h125, by decide⟩
  · intro now
    have h0 : App.default.elapsed now = 0 := rfl
    rw [h0]
    decide
  · intro t
    have h : (App.default.start_timer t).elapsed (t + 125) = 125 := by
      simp [App.default, App.start_timer, App.elapsed]
    rw [h]; exact h125
  · intro t m
    have h : ((App.default.start_timer t).stop_timer (t + 125)).elapsed m = 125 := by
      simp [App.default, App.start_timer, App.stop_timer, App.elapsed]
    rw [h]; exact h125

/-- C7: key `q` sets the exit flag and changes nothing else; keys `i`,
`p`, `c` invoke exactly the start, pause and resume operations; any other
key changes no state at all. -/
theorem key_dispatch_C7 : ∀ (a : App) (now : Nat),
    a.handle_key_event now 'q' = { a with exit := true } ∧
    a.handle_key_event now 'i' = a.start_game now ∧
    a.start_game now = a.start_timer now ∧
    a.handle_key_event now 'p' = a.stop_timer now ∧
    a.handle_key_event now 'c' = a.continue_timer now ∧
    ∀ c : Char, c ≠ 'q' → c ≠ 'i' → c ≠ 'p' → c ≠ 'c' →
      a.handle_key_event now c = a := by
  intro a now
  refine ⟨?_, ?_, rfl, ?_, ?_, ?_⟩
  · simp [App.handle_key_event, App.exit_app]
  · simp [App.handle_key_event]
  · simp [App.handle_key_event]
  · simp [App.handle_key_event]
  · intro c h1 h2 h3 h4
    simp [App.handle_key_event, h1, h2, h3, h4]

/-- Witness for C7: the unrecognized key `x` leaves the fresh state
untouched. -/
theorem key_dispatch_C7_witness :
    App.default.handle_key_event 0 'x' = App.default :=
  (key_dispatch_C7 App.default 0).2.2.2.2.2 'x'
    (by decide) (by decide) (by decide) (by decide)

/-- C8: the invariant that a start instant is present iff the timer is
running holds initially and is preserved by start, pause, resume, the
quit dispatch and every key dispatch, hence in every reachable state. -/
theorem invariant_C8 :
    timer_inv App.default ∧
    (∀ (a : App) (now : Nat), timer_inv a →
      timer_inv (a.start_timer now) ∧ timer_inv (a.stop_timer now) ∧
      timer_inv (a.continue_timer now) ∧ timer_inv a.exit_app ∧
      ∀ c : Char, timer_inv (a.handle_key_event now c)) ∧
    (∀ es : List (Nat × TimerOp), timer_inv ((runFrom App.default 0 es).1)) := by
  have hdef : timer_inv App.default := rfl
  refine ⟨hdef, ?_, fun es => runFrom_inv es App.default 0 hdef⟩
  intro a now h
  have hstart : timer_inv (a.start_timer now) := by
    by_cases hr : a.is_timer_running = true <;> simp_all [App.start_timer, timer_inv]
  have hstop : timer_inv (a.stop_timer now) := by
    rcases hs : a.start_time with _ | t0 <;>
      by_cases hr : a.is_timer_running = true <;>
        simp_all [App.stop_timer, timer_inv]
  have hcont : timer_inv (a.continue_timer now) := by
    by_cases hr : a.is_timer_running = true <;> simp_all [App.continue_timer, timer_inv]
  have hexit : timer_inv a.exit_app := by simp_all [App.exit_app, timer_inv]
  refine ⟨hstart, hstop, hcont, hexit, ?_⟩
  intro c
  unfold App.handle_key_event App.start_game
  split_ifs <;> first | exact hexit | exact hstart | exact hstop | exact hcont | exact h

/-- Witness for C8: starting the fresh timer preserves the invariant. -/
theorem invariant_C8_witness : timer_inv (App.default.start_timer 5) :=
  (invariant_C8.2.1 App.default 5 rfl).1

/-- C9: provided the clock never goes backward (delays are non-negative
by construction), `elapsed()` is monotonically non-decreasing: from any
state and instant, its value after any further trace of operations and
clock advances is at least its current value. -/
theorem elapsed_monotone_C9 (a : App) (t : Nat) (es : List (Nat × TimerOp)) (dF : Nat) :
    a.elapsed t ≤ ((runFrom a t es).1).elapsed ((runFrom a t es).2 + dF) :=
  runFrom_elapsed_le es a t dF

/-- C10: the accumulated `elapsed_time` field never decreases, whatever
the clock does: start, resume and the quit dispatch leave it unchanged,
pause only adds a non-negative amount, and every key dispatch leaves it
at least as large. -/
theorem accumulated_monotone_C10 : ∀ (a : App) (now : Nat) (c : Char),
    (a.start_timer now).elapsed_time = a.elapsed_time ∧
    (a.continue_timer now).elapsed_time = a.elapsed_time ∧
    a.exit_app.elapsed_time = a.elapsed_time ∧
    a.elapsed_time ≤ (a.stop_timer now).elapsed_time ∧
    a.elapsed_time ≤ (a.handle_key_event now c).elapsed_time := by
  intro a now c
  have h1 : (a.start_timer now).elapsed_time = a.elapsed_time := by
    by_cases hr : a.is_timer_running = true <;> simp [App.start_timer, hr]
  have h2 : (a.continue_timer now).elapsed_time = a.elapsed_time := by
    by_cases hr : a.is_timer_running = true <;> simp [App.continue_timer, hr]
  have h3 : a.exit_app.elapsed_time = a.elapsed_time := rfl
  have h4 : a.elapsed_time ≤ (a.stop_timer now).elapsed_time := by
    rcases hs : a.start_time with _ | t0 <;>
      by_cases hr : a.is_timer_running = true <;>
        simp [App.stop_timer, hr, hs]
  have h5 : a.elapsed_time ≤ (a.handle_key_event now c).elapsed_time := by
    unfold App.handle_key_event App.start_game
    split_ifs <;> simp [h1, h2, h3, h4, App.exit_app]
  exact ⟨h1, h2, h3, h4, h5⟩

/-! Helper lemmas about the band decomposition of the composed grid. -/

/-- A coordinate below `W` falls in band 0. -/
theorem bandOf_lo (W x : Nat) (h : x < W) : bandOf W x = some (0, x) := by
  simp [bandOf, h]

/-- The coordinate `W` is the first column of band 1. -/
theorem bandOf_W (W : Nat) (h : 0 < W) : bandOf W W = some (1, 0) := by
  unfold bandOf
  rw [if_neg (Nat.lt_irrefl W), if_pos (by omega : W < 2 * W)]
  simp

/-- The coordinate `2 * W - 1` is the last column of band 1. -/
theorem bandOf_2W1 (W : Nat) (h : 0 < W) : bandOf W (2 * W - 1) = some (1, W - 1) := by
  unfold bandOf
  rw [if_neg (by omega : ¬ 2 * W - 1 < W), if_pos (by omega : 2 * W - 1 < 2 * W)]
  rw [show 2 * W - 1 - W = W - 1 from by omega]

/-- The coordinate `3 * W - 1` is the last column of band 2. -/
theorem bandOf_3W1 (W : Nat) (h : 0 < W) : bandOf W (3 * W - 1) = some (2, W - 1) := by
  unfold bandOf
  rw [if_neg (by omega : ¬ 3 * W - 1 < W), if_neg (by omega : ¬ 3 * W - 1 < 2 * W),
    if_pos (by omega : 3 * W - 1 < 3 * W)]
  rw [show 3 * W - 1 - 2 * W = W - 1 from by omega]

/-- Any in-range coordinate falls in one of the three bands, with the
stated local coordinate. -/
theorem bandOf_cases (W x : Nat) (h : x < 3 * W) :
    (x < W ∧ bandOf W x = some (0, x)) ∨
    (W ≤ x ∧ x < 2 * W ∧ bandOf W x = some (1, x - W)) ∨
    (2 * W ≤ x ∧ x < 3 * W ∧ bandOf W x = some (2, x - 2 * W)) := by
  unfold bandOf
  by_cases h1 : x < W
  · left; simp [h1]
  · by_cases h2 : x < 2 * W
    · right; left
      rw [if_neg h1, if_pos h2]
      exact ⟨by omega, h2, rfl⟩
    · right; right
      rw [if_neg h1, if_neg h2, if_pos h]
      exact ⟨by omega, h, rfl⟩

/-- C4 counterexample: the spec asserts the exactly-one-draw rule for
every grid shape with at least one row and column, but in a 1 by 4 grid
the generalized plan paints the internal vertical boundary between the
two middle columns from both sides: column 1 paints `right` and column 2
paints `left`, so the shared edge is not drawn by exactly one neighbor. -/
theorem grid_edges_C4_counterexample :
    (bordersGen 1 4 0 1).right = true ∧ (bordersGen 1 4 0 2).left = true ∧
      ¬ Bool.xor (bordersGen 1 4 0 1).right (bordersGen 1 4 0 2).left = true := by
  refine ⟨by decide, by decide, by decide⟩

/-- C4 (amended): in the implemented 3 by 3 grid every cell paints
`bottom`, a cell paints `top` only in row 0, leftmost cells paint `left`,
rightmost cells paint `right`, every internal boundary is painted by
exactly one of its two neighbors and every perimeter edge exactly once;
the spec's generalized first/middle/last plan agrees with the source
table at 3 by 3, keeps the horizontal rule for every shape, but keeps the
vertical exactly-one rule only for the implemented column count. -/
theorem grid_edges_C4 :
    (∀ vi hi : Fin 3, (borders vi.val hi.val).bottom = true) ∧
    (∀ vi hi : Fin 3, ((borders vi.val hi.val).top = true ↔ hi.val = 0)) ∧
    (∀ hi : Fin 3, (borders 0 hi.val).left = true ∧ (borders 2 hi.val).right = true) ∧
    (∀ hi : Fin 3, ∀ c : Fin 2,
      Bool.xor (borders c.val hi.val).right (borders (c.val + 1) hi.val).left = true) ∧
    (∀ vi : Fin 3, ∀ r : Fin 2,
      Bool.xor (borders vi.val r.val).bottom (borders vi.val (r.val + 1)).top = true) ∧
    (∀ vi hi : Fin 3, bordersGen 3 3 hi.val vi.val = borders vi.val hi.val) ∧
    (∀ rows cols row col : Nat, row + 1 < rows → col < cols →
      Bool.xor (bordersGen rows cols row col).bottom
        (bordersGen rows cols (row + 1) col).top = true) ∧
    (∀ rows row col : Nat, col + 1 < 3 →
      Bool.xor (bordersGen rows 3 row col).right
        (bordersGen rows 3 row (col + 1)).left = true) := by
  refine ⟨by decide, by decide, by decide, by decide, by decide, by decide, ?_, ?_⟩
  · intro rows cols row col h1 h2
    simp [bordersGen]
  · intro rows row col h
    have h2 : col = 0 ∨ col = 1 := by omega
    rcases h2 with rfl | rfl <;> simp [bordersGen]

/-- Witness for C4: a horizontal separator of a 2 by 3 grid is drawn by
exactly one neighbor, and an internal vertical separator of the 3-column
plan likewise. -/
theorem grid_edges_C4_witness :
    Bool.xor (bordersGen 2 3 0 0).bottom (bordersGen 2 3 1 0).top = true ∧
      Bool.xor (bordersGen 5 3 0 0).right (bordersGen 5 3 0 1).left = true :=
  ⟨grid_edges_C4.2.2.2.2.2.2.1 2 3 0 0 (by decide) (by decide),
    grid_edges_C4.2.2.2.2.2.2.2 5 0 0 (by decide)⟩

set_option maxHeartbeats 4000000 in
/-- C5: in the composed 3 by 3 grid buffer (cells `W` wide and `H` tall),
the four interior junction points render the cross glyph, the eight
junction points on the perimeter render T glyphs oriented away from the
perimeter (opening right on the left edge, down on the top edge, left on
the right edge, up on the bottom edge), the four outer grid corners keep
the default thick L-corner glyphs, and every other position is either a
default straight-line glyph or blank. -/
theorem grid_junctions_C5 (W H : Nat) (hW : 2 ≤ W) (hH : 2 ≤ H) :
    (gridGlyph W H W (H - 1) = some Glyph.cross ∧
      gridGlyph W H (2 * W - 1) (H - 1) = some Glyph.cross ∧
      gridGlyph W H W (2 * H - 1) = some Glyph.cross ∧
      gridGlyph W H (2 * W - 1) (2 * H - 1) = some Glyph.cross ∧
      gridGlyph W H 0 (H - 1) = some Glyph.vertical_right ∧
      gridGlyph W H 0 (2 * H - 1) = some Glyph.vertical_right ∧
      gridGlyph W H W 0 = some Glyph.horizontal_down ∧
      gridGlyph W H (2 * W - 1) 0 = some Glyph.horizontal_down ∧
      gridGlyph W H (3 * W - 1) (H - 1) = some Glyph.vertical_left ∧
      gridGlyph W H (3 * W - 1) (2 * H - 1) = some Glyph.vertical_left ∧
      gridGlyph W H W (3 * H - 1) = some Glyph.horizontal_up ∧
      gridGlyph W H (2 * W - 1) (3 * H - 1) = some Glyph.horizontal_up ∧
      gridGlyph W H 0 0 = some Glyph.top_left ∧
      gridGlyph W H (3 * W - 1) 0 = some Glyph.top_right ∧
      gridGlyph W H 0 (3 * H - 1) = some Glyph.bottom_left ∧
      gridGlyph W H (3 * W - 1) (3 * H - 1) = some Glyph.bottom_right) ∧
    (∀ x y : Nat, x < 3 * W → y < 3 * H →
      ¬ (x ∈ junctionXs W ∧ y ∈ junctionYs H) →
      gridGlyph W H x y = some Glyph.horizontal ∨
        gridGlyph W H x y = some Glyph.vertical ∨ gridGlyph W H x y = none) := by
  have hx0 : bandOf W 0 = some (0, 0) := bandOf_lo W 0 (by omega)
  have hx1 : bandOf W W = some (1, 0) := bandOf_W W (by omega)
  have hx2 : bandOf W (2 * W - 1) = some (1, W - 1) := bandOf_2W1 W (by omega)
  have hx3 : bandOf W (3 * W - 1) = some (2, W - 1) := bandOf_3W1 W (by omega)
  have hy0 : bandOf H 0 = some (0, 0) := bandOf_lo H 0 (by omega)
  have hy1 : bandOf H (H - 1) = some (0, H - 1) := bandOf_lo H (H - 1) (by omega)
  have hy2 : bandOf H (2 * H - 1) = some (1, H - 1) := bandOf_2W1 H (by omega)
  have hy3 : bandOf H (3 * H - 1) = some (2, H - 1) := bandOf_3W1 H (by omega)
  constructor
  · refine ⟨?_, ?_, ?_, ?_, ?_, ?_, ?_, ?_, ?_, ?_, ?_, ?_, ?_, ?_, ?_, ?_⟩ <;>
      simp only [gridGlyph, hx0, hx1, hx2, hx3, hy0, hy1, hy2, hy3] <;>
        simp [cellRender, borders, border_set, bordersALL, THICK,
          show H - 1 + 1 = H from by omega, show ¬ (H - 1 = 0) from by omega,
          show W - 1 + 1 = W from by omega, show ¬ (W - 1 = 0) from by omega,
          show ¬ (1 = W) from by omega, show ¬ (1 = H) from by omega]
  · intro x y hx hy hnj
    rw [junctionXs, junctionYs] at hnj
    simp only [List.mem_cons, List.not_mem_nil, or_false] at hnj
    rcases bandOf_cases W x hx with ⟨ha1, hae⟩ | ⟨ha1, ha2, hae⟩ | ⟨ha1, ha2, hae⟩ <;>
      rcases bandOf_cases H y hy with ⟨hb1, hbe⟩ | ⟨hb1, hb2, hbe⟩ | ⟨hb1, hb2, hbe⟩ <;>
        simp only [gridGlyph, hae, hbe] <;>
          simp [cellRender, borders, border_set, bordersALL, THICK] <;>
            split_ifs <;>
              first
                | (left; rfl)
                | (right; left; rfl)
                | (right; right; rfl)
                | (exact absurd ⟨by omega, by omega⟩ hnj)

/-- Witness for C5: the full junction-glyph table at cell size 4 by 4. -/
theorem grid_junctions_C5_witness :
    gridGlyph 4 4 4 3 = some Glyph.cross ∧
      gridGlyph 4 4 7 3 = some Glyph.cross ∧
      gridGlyph 4 4 4 7 = some Glyph.cross ∧
      gridGlyph 4 4 7 7 = some Glyph.cross ∧
      gridGlyph 4 4 0 3 = some Glyph.vertical_right ∧
      gridGlyph 4 4 0 7 = some Glyph.vertical_right ∧
      gridGlyph 4 4 4 0 = some Glyph.horizontal_down ∧
      gridGlyph 4 4 7 0 = some Glyph.horizontal_down ∧
      gridGlyph 4 4 11 3 = some Glyph.vertical_left ∧
      gridGlyph 4 4 11 7 = some Glyph.vertical_left ∧
      gridGlyph 4 4 4 11 = some Glyph.horizontal_up ∧
      gridGlyph 4 4 7 11 = some Glyph.horizontal_up ∧
      gridGlyph 4 4 0 0 = some Glyph.top_left ∧
      gridGlyph 4 4 11 0 = some Glyph.top_right ∧
      gridGlyph 4 4 0 11 = some Glyph.bottom_left ∧
      gridGlyph 4 4 11 11 = some Glyph.bottom_right :=
  (grid_junctions_C5 4 4 (by decide) (by decide)).1

end Rusuku
